import Mathlib

/-!
# Verification of the momentum scanner and merch utilities

Shallow embedding of `src/scanner/momentum_print_scan.py`,
`src/scanner/realtime_gainer_scan.py` and `src/src/utils.py`.
Python floats are modelled as rationals, Python `None` as `Option`,
and Python truthiness explicitly.  Network calls (the Polygon fetchers)
are abstracted into explicit parameters carrying the fetched data, so the
pure computations on that data are embedded exactly as written.
-/

namespace Scanner

/-- Python truthiness of an optional float: `None` and `0.0` are falsy. -/
def truthy : Option ℚ → Bool
  | none => false
  | some x => x ≠ 0

/-- Python `x or 0` on an optional float. -/
def orZero (o : Option ℚ) : ℚ := o.getD 0

/-- Python `a or b` on optional floats: the first truthy operand, else `None`. -/
def pyOr (a b : Option ℚ) : Option ℚ :=
  if truthy a then a else if truthy b then b else none

/-- Python `round(x, 2)`: round to two decimal places.  (Python uses
round-half-to-even on binary doubles; all inputs considered here are exact
at two decimals, so the tie-breaking rule is immaterial.) -/
def round2 (q : ℚ) : ℚ := (round (q * 100) : ℤ) / 100

/-- Python `round(x, 0)`: round to an integer. -/
def round0 (q : ℚ) : ℚ := (round q : ℤ)

/-- Embeds `compute_confidence` from `momentum_print_scan.py` lines 270-277. -/
def compute_confidence (base news flow liq market : ℚ) : ℚ :=
  (0.35 * base + 0.25 * news + 0.20 * flow + 0.10 * liq + 0.10 * market) * 100

/-- Embeds `conviction_from_confidence` from `momentum_print_scan.py` lines 280-285. -/
def conviction_from_confidence (conf : ℚ) : String :=
  if conf ≥ 75 then ("High")
  else if conf ≥ 55 then ("Medium")
  else ("Low")

/-- The `conv_num` ranking used by `process_row` line 321:
`{"High": 2, "Medium": 1, "Low": 0}`. -/
def conv_num : String → ℕ
  | "High" => 2
  | "Medium" => 1
  | _ => 0

/-- The `QuoteStats` dataclass of `momentum_print_scan.py` lines 125-132. -/
structure QuoteStats where
  bid : Option ℚ
  ask : Option ℚ
  bid_size : Option ℚ
  ask_size : Option ℚ
  spread_pct : Option ℚ
  liq_score : ℚ
deriving DecidableEq

/-- The spread component of the liquidity score (`momentum_print_scan.py`
lines 148-151): `max(0.0, 1 - spread_pct / 5)` when a spread is available,
`0.0` otherwise. -/
def spread_component : Option ℚ → ℚ
  | none => 0
  | some sp => max 0 (1 - sp / 5)

/-- Embeds `fetch_quote` from `momentum_print_scan.py` lines 135-156, with the raw
quote fields (`bp`, `ap`, `bs`, `as`) obtained from the network call passed
in as parameters. -/
def fetch_quote (bp ap bs asz : Option ℚ) : QuoteStats :=
  let spread_pct : Option ℚ :=
    if truthy bp && truthy ap && decide (0 < orZero bp)
    then some ((orZero ap - orZero bp) / orZero bp * 100)
    else none
  let spread_score : ℚ := spread_component spread_pct
  let size_score : ℚ :=
    if truthy bs || truthy asz
    then min ((orZero bs + orZero asz) / 2000) 1
    else 0
  let liq_score : ℚ := (spread_score + size_score) / 2
  ⟨bp, ap, bs, asz, spread_pct, liq_score⟩

/-- Modelled from the spec: the size component as the spec words it,
`min((bid_size + ask_size)/2, cap)/cap` with `cap = 2000`. -/
def size_component_spec (bid_size ask_size : ℚ) : ℚ :=
  min ((bid_size + ask_size) / 2) 2000 / 2000

/-- Renders a rational with one decimal place, as Python `f"{x:.1f}"` does.
(Python rounds the binary double half-to-even; all inputs considered here
are exact at one decimal, so the tie-breaking rule is immaterial.) -/
def fmt1 (x : ℚ) : String :=
  let n : ℤ := round (x * 10)
  toString (n / 10) ++ "." ++ toString (n % 10)

/-- Embeds `format_volume` from `momentum_print_scan.py` lines 77-85. -/
def format_volume : Option ℚ → String
  | none => ""
  | some vol =>
    if vol ≥ 1000000000 then fmt1 (vol / 1000000000) ++ "B"
    else if vol ≥ 1000000 then fmt1 (vol / 1000000) ++ "M"
    else if vol ≥ 1000 then fmt1 (vol / 1000) ++ "K"
    else toString (round vol : ℤ)

/-- Embeds `compute_targets` from `momentum_print_scan.py` lines 257-267, with the
result of `fetch_daily_high(ticker)` passed in as `high` (the unused `ticker`
and `entry` parameters are dropped). -/
def compute_targets (high : Option ℚ) (t1 t2 : Option ℚ) : Option ℚ × Option ℚ :=
  if truthy t1 && truthy t2 then (t1, t2)
  else
    match high with
    | none => (t1, t2)
    | some h =>
      let t1' := if truthy t1 then t1 else some (round2 h)
      let t2' := if truthy t2 then t2 else some (round2 (h * 1.05))
      (t1', t2')

/-- The `PremarketStats` dataclass of `momentum_print_scan.py` lines 93-98. -/
structure PremarketStats where
  price : Option ℚ
  vwap : Option ℚ
  volume : ℚ
  alive : Bool
deriving DecidableEq

/-- Embeds `compute_flow_score` from `momentum_print_scan.py` lines 226-232. -/
def compute_flow_score (premkt : PremarketStats) : ℚ :=
  let score : ℚ := if premkt.volume ≠ 0 then min (premkt.volume / 5000000) 1 else 0
  if truthy premkt.price && truthy premkt.vwap
     && decide (orZero premkt.vwap ≤ orZero premkt.price)
  then min (score + 0.1) 1
  else score

/-- A normalized watchlist row as produced by `load_watchlist`: the `symbol`
column (empty string when absent) and the optional numeric columns read by
`process_row` (an empty CSV cell is `none`). -/
structure InRow where
  symbol : String
  score_10 : Option ℚ
  entry : Option ℚ
  px : Option ℚ
  stop : Option ℚ
  t1 : Option ℚ
  t2 : Option ℚ
deriving DecidableEq

/-- The live data that the Polygon fetchers would return for a ticker:
`fetch_premarket`, `fetch_quote` (its raw quote fields), `fetch_news_score`
and `fetch_daily_high`. -/
structure Env where
  premkt : String → PremarketStats
  quote : String → QuoteStats
  news : String → ℚ × Bool
  high : String → Option ℚ

/-- The output dict built by `process_row` (`momentum_print_scan.py`
lines 319-335); `spread_pct` stands for the `"spread%"` key. -/
structure OutRec where
  cv : String
  conv_num : ℕ
  conf : ℚ
  sym : String
  px : ℚ
  entry : Option ℚ
  stop : Option ℚ
  T1 : Option ℚ
  T2 : Option ℚ
  pm_px : Option ℚ
  pm_vwap : Option ℚ
  pm_vol : ℚ
  spread_pct : Option ℚ
  score : Option ℚ
  news : Bool
deriving DecidableEq

/-- Python `str.upper`, modelled character-wise. -/
def pyUpper (s : String) : String := String.mk (s.data.map Char.toUpper)

/-- Embeds `process_row` from `momentum_print_scan.py` lines 288-335.  The empty
dict returned for a blank symbol is modelled as `none`.  The network
fetchers are read from `env`. -/
def process_row (env : Env) (row : InRow) (mkt_score : ℚ) : Option OutRec :=
  let ticker := pyUpper row.symbol
  if ticker = "" then none
  else
    let base_score : ℚ := orZero row.score_10 / 10
    let entry0 : Option ℚ := pyOr row.entry row.px
    let premkt := env.premkt ticker
    let quote := env.quote ticker
    let ns := env.news ticker
    let flow_score := compute_flow_score premkt
    let liq_score := quote.liq_score
    let conf := compute_confidence base_score ns.1 flow_score liq_score mkt_score
    let conviction := conviction_from_confidence conf
    let entry1 : Option ℚ := if entry0 = none then premkt.price else entry0
    let stop1 : Option ℚ :=
      if row.stop = none && truthy entry1
      then some (round2 (orZero entry1 * 0.97))
      else row.stop
    let ts := compute_targets (env.high ticker) row.t1 row.t2
    some
      { cv := conviction
        conv_num := conv_num conviction
        conf := round0 conf
        sym := ticker
        px := if truthy row.px then round2 (orZero row.px) else round2 (orZero premkt.price)
        entry := if truthy entry1 then some (round2 (orZero entry1)) else none
        stop := if truthy stop1 then some (round2 (orZero stop1)) else none
        T1 := ts.1
        T2 := ts.2
        pm_px := if truthy premkt.price then some (round2 (orZero premkt.price)) else none
        pm_vwap := if truthy premkt.vwap then some (round2 (orZero premkt.vwap)) else none
        pm_vol := premkt.volume
        spread_pct := if truthy quote.spread_pct then some (round2 (orZero quote.spread_pct)) else none
        score := row.score_10
        news := ns.2 }

/-- The row list assembled by `run_scan` (`momentum_print_scan.py` lines
364-368): rows whose `process_row` result is empty are not appended. -/
def run_scan_rows (env : Env) (watchlist : List InRow) (mkt_score : ℚ) : List OutRec :=
  watchlist.filterMap (fun row => process_row env row mkt_score)

/-- The sort key ordering used by `build_table` (`momentum_print_scan.py`
line 348): `a` precedes `b` under descending lexicographic order on
`(conv_num, conf, pm_vol)`. -/
def table_le (a b : OutRec) : Prop :=
  b.conv_num < a.conv_num ∨
    (a.conv_num = b.conv_num ∧
      (b.conf < a.conf ∨ (a.conf = b.conf ∧ b.pm_vol ≤ a.pm_vol)))

instance : DecidableRel table_le := fun a b => by
  unfold table_le; infer_instance

/-- The row ordering produced by `build_table`
(`df.sort_values(["conv_num", "conf", "pm_vol"], ascending=[False, False,
False])`, a stable sort on the descending lexicographic key). -/
def build_table_rows (rows : List OutRec) : List OutRec :=
  rows.insertionSort table_le

/-- An HTTP response: status code and (already decoded) JSON body, the
latter abstracted as a string, `"{}"` standing for the empty dict. -/
structure Response where
  status : ℕ
  body : String
deriving DecidableEq

/-- The error raised by `requests.Response.raise_for_status`, which raises
exactly when the status code is in 400-599. -/
structure HTTPError where
  status : ℕ
deriving DecidableEq

/-- Models `requests.Response.raise_for_status`: error on a 4xx/5xx status. -/
def raise_for_status (r : Response) : Except HTTPError Response :=
  if 400 ≤ r.status ∧ r.status < 600 then .error ⟨r.status⟩ else .ok r

/-- Embeds `_get` from `realtime_gainer_scan.py` lines 27-33.  The wrapper is fed
the list of responses the server would return to successive request
attempts; it returns the outcome together with the number of requests made
and the list of sleep durations performed.  The code issues exactly one
request, raises on any 4xx/5xx status via `raise_for_status`, and never
sleeps. -/
def get_wrapper (responses : List Response) : Except HTTPError String × ℕ × List ℕ :=
  match responses with
  | [] => (.error ⟨0⟩, 0, [])
  | r :: _ =>
    (match raise_for_status r with
     | .error e => .error e
     | .ok ok => .ok ok.body, 1, [])

/-- Embeds `polygon_get` from `momentum_print_scan.py` lines 44-60, with the same
attempt-sequence convention as `get_wrapper`.  With no API key it returns
`{}` without issuing a request; otherwise it issues exactly one request and
swallows every failure (any 4xx/5xx status, or no response at all) by
returning `{}`.  It never sleeps and never raises. -/
def polygon_get (apiKey : Option String) (responses : List Response) :
    String × ℕ × List ℕ :=
  if apiKey = none then ("\x7b\x7d", 0, [])
  else
    match responses with
    | [] => ("\x7b\x7d", 1, [])
    | r :: _ =>
      (match raise_for_status r with
       | .error _ => "\x7b\x7d"
       | .ok ok => ok.body, 1, [])

/-- Modelled from the spec: the retrying client the spec describes, which
is absent from the code.  "On HTTP 429, sleeps with exponentially
increasing backoff (starting at 1 time unit, doubling) up to a fixed retry
ceiling, then raises on exhaustion.  On any other non-2xx status, raises
immediately."  `fuel` is the number of attempts remaining. -/
def spec_retry_get : ℕ → ℕ → List Response → Except HTTPError String × ℕ × List ℕ
  | 0, _, _ => (.error ⟨429⟩, 0, [])
  | _ + 1, _, [] => (.error ⟨0⟩, 1, [])
  | fuel + 1, backoff, r :: rest =>
    if r.status = 429 then
      if fuel = 0 then (.error ⟨429⟩, 1, [])
      else
        let next := spec_retry_get fuel (2 * backoff) rest
        (next.1, next.2.1 + 1, backoff :: next.2.2)
    else if 200 ≤ r.status ∧ r.status < 300 then (.ok r.body, 1, [])
    else (.error ⟨r.status⟩, 1, [])

/-- The fixed attempt ceiling of the spec's retrying client. -/
def MAX_ATTEMPTS : ℕ := 5

/-- A fetch environment where nothing is live: no bars, no quote, no news,
no daily high. -/
def defaultEnv : Env where
  premkt := fun _ => ⟨none, none, 0, false⟩
  quote := fun _ => ⟨none, none, none, none, none, 0⟩
  news := fun _ => (0, false)
  high := fun _ => none

/-- A table row with the given conviction label and rank, all tie-breaker
columns equal across rows. -/
def mkRow (cv : String) (k : ℕ) : OutRec :=
  ⟨cv, k, 50, "TST", 1, none, none, none, none, none, none, 0, none, none, false⟩

/-- The `table_le` ordering is transitive. -/
instance : IsTrans OutRec table_le := by
  constructor
  intro a b c hab hbc
  unfold table_le at hab hbc ⊢
  obtain h1 | ⟨e1, hab2⟩ := hab <;> obtain h2 | ⟨e2, hbc2⟩ := hbc
  · exact Or.inl (lt_trans h2 h1)
  · left
    rw [← e2]
    exact h1
  · left
    rw [e1]
    exact h2
  · right
    refine ⟨e1.trans e2, ?_⟩
    obtain hc1 | ⟨f1, hv1⟩ := hab2 <;> obtain hc2 | ⟨f2, hv2⟩ := hbc2
    · exact Or.inl (lt_trans hc2 hc1)
    · left
      rw [← f2]
      exact hc1
    · left
      rw [f1]
      exact hc2
    · exact Or.inr ⟨f1.trans f2, le_trans hv2 hv1⟩

/-- The `table_le` ordering is total. -/
instance : IsTotal OutRec table_le := by
  constructor
  intro a b
  unfold table_le
  by_cases h : a.conv_num = b.conv_num
  · by_cases hc : a.conf = b.conf
    · rcases le_total b.pm_vol a.pm_vol with hv | hv
      · exact Or.inl (Or.inr ⟨h, Or.inr ⟨hc, hv⟩⟩)
      · exact Or.inr (Or.inr ⟨h.symm, Or.inr ⟨hc.symm, hv⟩⟩)
    · rcases lt_or_gt_of_ne hc with hlt | hgt
      · exact Or.inr (Or.inr ⟨h.symm, Or.inl hlt⟩)
      · exact Or.inl (Or.inr ⟨h, Or.inl hgt⟩)
  · rcases Nat.lt_or_ge a.conv_num b.conv_num with hlt | hge
    · exact Or.inr (Or.inl hlt)
    · exact Or.inl (Or.inl (by omega))

end Scanner

namespace Utils

/-- A regex `\w` character (restricted to the ASCII semantics matching
Lean's character classifiers): alphanumeric or underscore. -/
def isWordChar (c : Char) : Bool := c.isAlphanum || c == '_'

/-- The characters kept by `re.sub(r"[^\w\s-]+", "", s)`: word characters,
whitespace and hyphens. -/
def keepChar (c : Char) : Bool := isWordChar c || c.isWhitespace || c == '-'

/-- Models `re.sub(r"\s+", "_", s)`: replace every maximal run of whitespace with
a single underscore. -/
def collapseWs : List Char → List Char
  | [] => []
  | [c] => if c.isWhitespace then ['_'] else [c]
  | c1 :: c2 :: rest =>
    if c1.isWhitespace && c2.isWhitespace then collapseWs (c2 :: rest)
    else if c1.isWhitespace then '_' :: collapseWs (c2 :: rest)
    else c1 :: collapseWs (c2 :: rest)

/-- Python `str.strip("_")`: remove all leading and trailing underscores. -/
def stripUnderscore (l : List Char) : List Char :=
  ((l.dropWhile (· == '_')).reverse.dropWhile (· == '_')).reverse

/-- Embeds `slugify` from `src/src/utils.py` lines 11-15: lower-case, drop
characters outside `[\w\s-]`, replace whitespace runs with `_`, strip
leading/trailing `_`.  (`str.lower` and the regex character classes are
modelled with Lean's ASCII character classifiers.) -/
def slugify (s : String) : String :=
  String.mk (stripUnderscore (collapseWs ((s.data.map Char.toLower).filter keepChar)))

end Utils

namespace Scanner

/-- The liquidity score is the mean of the spread component and the size
branch, by unfolding `fetch_quote`. -/
theorem fetch_quote_liq_score (bp ap bs asz : Option ℚ) :
    (fetch_quote bp ap bs asz).liq_score
      = (spread_component (fetch_quote bp ap bs asz).spread_pct
          + (if truthy bs || truthy asz
             then min ((orZero bs + orZero asz) / 2000) 1
             else 0)) / 2 := rfl

/-- C2: for inputs in `[0,1]^5`, `compute_confidence` is the weighted sum
`100 * (0.35 base + 0.25 news + 0.20 flow + 0.10 liq + 0.10 market)` and
lies in `[0, 100]`. -/
theorem compute_confidence_weighted_bounds (b n f l m : ℚ)
    (hb : 0 ≤ b ∧ b ≤ 1) (hn : 0 ≤ n ∧ n ≤ 1) (hf : 0 ≤ f ∧ f ≤ 1)
    (hl : 0 ≤ l ∧ l ≤ 1) (hm : 0 ≤ m ∧ m ≤ 1) :
    compute_confidence b n f l m
      = 100 * (0.35 * b + 0.25 * n + 0.20 * f + 0.10 * l + 0.10 * m) ∧
    0 ≤ compute_confidence b n f l m ∧ compute_confidence b n f l m ≤ 100 := by
  obtain ⟨hb0, hb1⟩ := hb
  obtain ⟨hn0, hn1⟩ := hn
  obtain ⟨hf0, hf1⟩ := hf
  obtain ⟨hl0, hl1⟩ := hl
  obtain ⟨hm0, hm1⟩ := hm
  unfold compute_confidence
  refine ⟨by ring, by nlinarith, by nlinarith⟩

/-- Witness for C2 at `(1, 1/2, 0, 1, 0)`. -/
theorem compute_confidence_weighted_bounds_witness :
    compute_confidence 1 (1/2) 0 1 0
      = 100 * (0.35 * 1 + 0.25 * (1/2) + 0.20 * 0 + 0.10 * 1 + 0.10 * 0) ∧
    0 ≤ compute_confidence 1 (1/2) 0 1 0 ∧ compute_confidence 1 (1/2) 0 1 0 ≤ 100 :=
  compute_confidence_weighted_bounds 1 (1/2) 0 1 0
    (by norm_num) (by norm_num) (by norm_num) (by norm_num) (by norm_num)

/-- C3: the conviction bands are exactly `High ↔ conf ≥ 75`,
`Medium ↔ 55 ≤ conf < 75`, `Low ↔ conf < 55`, and the band rank is
monotone in the confidence. -/
theorem conviction_bands (conf : ℚ) :
    (conviction_from_confidence conf = "High" ↔ 75 ≤ conf) ∧
    (conviction_from_confidence conf = "Medium" ↔ 55 ≤ conf ∧ conf < 75) ∧
    (conviction_from_confidence conf = "Low" ↔ conf < 55) ∧
    ∀ c : ℚ, conf ≤ c →
      conv_num (conviction_from_confidence conf)
        ≤ conv_num (conviction_from_confidence c) := by
  refine ⟨?_, ?_, ?_, ?_⟩
  · unfold conviction_from_confidence
    split_ifs with h1 h2 <;> simp_all <;> linarith
  · unfold conviction_from_confidence
    split_ifs with h1 h2 <;> simp_all <;> linarith
  · unfold conviction_from_confidence
    split_ifs with h1 h2 <;> simp_all <;> linarith
  · intro c hc
    unfold conviction_from_confidence
    split_ifs with h1 h2 h3 h4 h5 <;> simp [conv_num] <;> linarith

/-- Witness for C3 at `conf = 60` (Medium) against `c = 80`. -/
theorem conviction_bands_witness :
    conviction_from_confidence 60 = "Medium" ∧
    conv_num (conviction_from_confidence 60)
      ≤ conv_num (conviction_from_confidence 80) :=
  ⟨(conviction_bands 60).2.1.mpr (by norm_num),
   (conviction_bands 60).2.2.2 80 (by norm_num)⟩

/-- C4 counterexample: at `bid = ask = 10`, `bid_size = ask_size = 1000`,
the spread is `0` (component `1`), the code's liquidity score is `1`, but
the claimed size component `min((bid_size+ask_size)/2, 2000)/2000` is `1/2`
and the claimed mean is `3/4 ≠ 1`. -/
theorem size_component_counterexample :
    (fetch_quote (some 10) (some 10) (some 1000) (some 1000)).spread_pct = some 0 ∧
    (fetch_quote (some 10) (some 10) (some 1000) (some 1000)).liq_score = 1 ∧
    size_component_spec 1000 1000 = 1/2 ∧
    (spread_component (some 0) + size_component_spec 1000 1000) / 2 = 3/4 ∧
    (3/4 : ℚ) ≠ 1 := by
  refine ⟨?_, ?_, ?_, ?_, by norm_num⟩
  · simp only [fetch_quote, truthy, orZero]
    norm_num
  · simp only [fetch_quote, truthy, orZero, spread_component]
    norm_num
  · norm_num [size_component_spec]
  · norm_num [size_component_spec, spread_component]

/-- C4 amended: with both sizes present, the size component is
`min((bid_size + ask_size)/2000, 1)` (that is,
`min(bid_size + ask_size, 2000)/2000`), and the liquidity score is the
mean of the spread component and this size component. -/
theorem liq_score_components (bp ap : Option ℚ) (b a : ℚ) :
    (fetch_quote bp ap (some b) (some a)).liq_score
      = (spread_component (fetch_quote bp ap (some b) (some a)).spread_pct
          + min ((b + a) / 2000) 1) / 2 ∧
    min ((b + a) / 2000) 1 = min (b + a) 2000 / 2000 := by
  constructor
  · rw [fetch_quote_liq_score]
    rcases eq_or_ne b 0 with hb | hb <;> rcases eq_or_ne a 0 with ha | ha <;>
      simp [truthy, orZero, hb, ha]
  · rcases le_total (b + a) 2000 with h | h
    · rw [min_eq_left (by linarith), min_eq_left (by linarith)]
    · rw [min_eq_right (by linarith), min_eq_right (by linarith)]
      norm_num

/-- C5: for a quote with both sizes `1000` whose computed spread percentage
is `0`, the spread component is `1`, the size component is `1`, and the
liquidity score is `1`. -/
theorem liq_score_perfect_quote (bp ap : Option ℚ)
    (hs : (fetch_quote bp ap (some 1000) (some 1000)).spread_pct = some 0) :
    spread_component (fetch_quote bp ap (some 1000) (some 1000)).spread_pct = 1 ∧
    min (((1000:ℚ) + 1000) / 2000) 1 = 1 ∧
    (fetch_quote bp ap (some 1000) (some 1000)).liq_score = 1 := by
  refine ⟨by rw [hs]; norm_num [spread_component], by norm_num, ?_⟩
  rw [fetch_quote_liq_score, hs]
  simp [truthy, orZero, spread_component]
  norm_num

/-- Witness for C5 at `bid = ask = 10`. -/
theorem liq_score_perfect_quote_witness :
    spread_component (fetch_quote (some 10) (some 10) (some 1000) (some 1000)).spread_pct = 1 ∧
    min (((1000:ℚ) + 1000) / 2000) 1 = 1 ∧
    (fetch_quote (some 10) (some 10) (some 1000) (some 1000)).liq_score = 1 :=
  liq_score_perfect_quote (some 10) (some 10)
    (by simp only [fetch_quote, truthy, orZero]; norm_num)

/-- C9: with no explicit overrides and a fetched 30-day high `h`,
`compute_targets` resolves `target1 = round(h, 2)` and
`target2 = round(h * 1.05, 2)`; in particular `h = 12.00` gives
`target1 = 12.00` and `target2 = 12.60`. -/
theorem compute_targets_from_high (h : ℚ) :
    compute_targets (some h) none none
      = (some (round2 h), some (round2 (h * 1.05))) ∧
    compute_targets (some 12) none none = (some 12, some 12.60) := by
  constructor
  · simp [compute_targets, truthy]
  · simp only [compute_targets, truthy, Bool.and_self, Bool.false_and, if_neg,
      Bool.false_eq_true, not_false_iff, round2]
    norm_num [round_eq]

end Scanner

namespace Scanner

/-- C6: `format_volume` renders values below `1000` as a plain integer
string and otherwise divides by `1e9`/`1e6`/`1e3` and appends the
`B`/`M`/`K` suffix with one decimal place; in particular `500 → "500"`,
`1500 → "1.5K"`, `2500000 → "2.5M"`, `1200000000 → "1.2B"`. -/
theorem format_volume_spec :
    format_volume (some 500) = "500" ∧
    format_volume (some 1500) = "1.5K" ∧
    format_volume (some 2500000) = "2.5M" ∧
    format_volume (some 1200000000) = "1.2B" ∧
    (∀ v : ℚ, v < 1000 → format_volume (some v) = toString (round v : ℤ)) ∧
    (∀ v : ℚ, 1000 ≤ v → v < 1000000 →
      format_volume (some v) = fmt1 (v / 1000) ++ "K") ∧
    (∀ v : ℚ, 1000000 ≤ v → v < 1000000000 →
      format_volume (some v) = fmt1 (v / 1000000) ++ "M") ∧
    (∀ v : ℚ, 1000000000 ≤ v →
      format_volume (some v) = fmt1 (v / 1000000000) ++ "B") := by
  refine ⟨?_, ?_, ?_, ?_, ?_, ?_, ?_, ?_⟩
  · have h : round ((500:ℚ)) = 500 := by norm_num [round_eq]
    simp only [format_volume, h]
    norm_num
    rfl
  · have h : round ((1500:ℚ) / 1000 * 10) = 15 := by norm_num [round_eq]
    simp only [format_volume, fmt1, h]
    norm_num
    rfl
  · have h : round ((2500000:ℚ) / 1000000 * 10) = 25 := by norm_num [round_eq]
    simp only [format_volume, fmt1, h]
    norm_num
    rfl
  · have h : round ((1200000000:ℚ) / 1000000000 * 10) = 12 := by norm_num [round_eq]
    simp only [format_volume, fmt1, h]
    norm_num
    rfl
  · intro v hv
    simp only [format_volume]
    rw [if_neg (by simp; linarith), if_neg (by simp; linarith), if_neg (by simp; linarith)]
  · intro v hv1 hv2
    simp only [format_volume]
    rw [if_neg (by simp; linarith), if_neg (by simp; linarith), if_pos (by exact hv1)]
  · intro v hv1 hv2
    simp only [format_volume]
    rw [if_neg (by simp; linarith), if_pos (by exact hv1)]
  · intro v hv1
    simp only [format_volume]
    rw [if_pos (by exact hv1)]

/-- Witness for C6's general plain-integer branch at `v = 999`. -/
theorem format_volume_spec_witness :
    format_volume (some 999) = toString (round (999:ℚ) : ℤ) :=
  format_volume_spec.2.2.2.2.1 999 (by norm_num)

/-- C7: a watchlist row with an empty (or absent) symbol yields the empty
record from `process_row`, whatever its other fields, and contributes no
row to the table printed by `run_scan`. -/
theorem empty_symbol_excluded (env : Env) (row : InRow) (mkt : ℚ)
    (h : row.symbol = "") :
    process_row env row mkt = none ∧
    ∀ ws1 ws2 : List InRow,
      run_scan_rows env (ws1 ++ row :: ws2) mkt = run_scan_rows env (ws1 ++ ws2) mkt := by
  have hp : process_row env row mkt = none := by
    unfold process_row
    rw [h]
    rfl
  refine ⟨hp, fun ws1 ws2 => ?_⟩
  unfold run_scan_rows
  rw [List.filterMap_append, List.filterMap_append]
  congr 1
  simp [hp]

/-- Witness for C7: a blank-symbol row (with populated other fields) in a
one-row watchlist. -/
theorem empty_symbol_excluded_witness :
    process_row defaultEnv ⟨"", some 9, some 5, some 5, some 4, some 6, some 7⟩ 0 = none ∧
    run_scan_rows defaultEnv
      ([] ++ ⟨"", some 9, some 5, some 5, some 4, some 6, some 7⟩ :: []) 0
      = run_scan_rows defaultEnv ([] ++ []) 0 :=
  ⟨(empty_symbol_excluded defaultEnv ⟨"", some 9, some 5, some 5, some 4, some 6, some 7⟩ 0 rfl).1,
   (empty_symbol_excluded defaultEnv ⟨"", some 9, some 5, some 5, some 4, some 6, some 7⟩ 0 rfl).2 [] []⟩

/-- C8: `build_table` orders rows by conviction rank descending, then
confidence descending, then premarket volume descending (the output is
sorted under `table_le` and is a permutation of the input); in particular
rows with convictions `[Low, High, Medium]` and equal tie-breakers come out
as `[High, Medium, Low]`. -/
theorem build_table_sort :
    (∀ rows : List OutRec,
      (build_table_rows rows).Sorted table_le ∧ (build_table_rows rows).Perm rows) ∧
    build_table_rows [mkRow ("Low") 0, mkRow ("High") 2, mkRow ("Medium") 1]
      = [mkRow ("High") 2, mkRow ("Medium") 1, mkRow ("Low") 0] := by
  refine ⟨fun rows => ⟨List.sorted_insertionSort table_le rows,
    List.perm_insertionSort table_le rows⟩, ?_⟩
  decide

/-- C1 counterexample: fed a 429 response followed by a 200 response, the
spec's retrying client would succeed after one backoff sleep of 1 time
unit, but `_get` raises at once with no sleep and `polygon_get` returns the
empty dict with no sleep. -/
theorem http_retry_counterexample :
    get_wrapper [⟨429, ""⟩, ⟨200, "ok"⟩] = (.error ⟨429⟩, 1, []) ∧
    polygon_get (some ("key")) [⟨429, ""⟩, ⟨200, "ok"⟩] = ("\x7b\x7d", 1, []) ∧
    spec_retry_get MAX_ATTEMPTS 1 [⟨429, ""⟩, ⟨200, "ok"⟩] = (.ok ("ok"), 2, [1]) ∧
    (Except.error ⟨429⟩ : Except HTTPError String) ≠ .ok ("ok") := by
  refine ⟨rfl, rfl, rfl, ?_⟩
  intro hcon
  cases hcon

/-- C1 amended: neither wrapper retries or sleeps.  `_get` issues a single
request and raises immediately on any 4xx/5xx status (429 included);
`polygon_get` issues at most one request and swallows every failure (429
included) by returning the empty dict; both always perform zero sleeps and
at most one request. -/
theorem http_wrappers_no_retry (r : Response) (rest : List Response) (key : String)
    (h4 : 400 ≤ r.status) (h6 : r.status < 600) :
    get_wrapper (r :: rest) = (.error ⟨r.status⟩, 1, []) ∧
    polygon_get (some key) (r :: rest) = ("\x7b\x7d", 1, []) ∧
    (∀ rs : List Response, (get_wrapper rs).2.2 = [] ∧ (get_wrapper rs).2.1 ≤ 1) ∧
    (∀ k rs, (polygon_get k rs).2.2 = [] ∧ (polygon_get k rs).2.1 ≤ 1) := by
  have hrs : raise_for_status r = Except.error ⟨r.status⟩ := by
    unfold raise_for_status
    rw [if_pos]
    exact ⟨h4, h6⟩
  refine ⟨?_, ?_, ?_, ?_⟩
  · simp only [get_wrapper]
    rw [hrs]
  · simp only [polygon_get]
    rw [if_neg (by simp), hrs]
  · intro rs
    cases rs with
    | nil => exact ⟨rfl, by decide⟩
    | cons a t => exact ⟨rfl, le_refl 1⟩
  · intro k rs
    cases k with
    | none => exact ⟨rfl, by simp [polygon_get]⟩
    | some s =>
      cases rs with
      | nil => exact ⟨rfl, le_refl 1⟩
      | cons a t => exact ⟨rfl, le_refl 1⟩

/-- Witness for C1's amended statement at a concrete 429 response. -/
theorem http_wrappers_no_retry_witness :
    get_wrapper [⟨429, "err"⟩] = (.error ⟨429⟩, 1, []) ∧
    polygon_get (some ("key")) [⟨429, "err"⟩] = ("\x7b\x7d", 1, []) ∧
    (∀ rs : List Response, (get_wrapper rs).2.2 = [] ∧ (get_wrapper rs).2.1 ≤ 1) ∧
    (∀ k rs, (polygon_get k rs).2.2 = [] ∧ (polygon_get k rs).2.1 ≤ 1) :=
  http_wrappers_no_retry ⟨429, "err"⟩ [] ("key") (by norm_num) (by norm_num)

end Scanner

namespace Utils

/-- The function `Char.toLower` written out through `Char.toNat`. -/
theorem toLower_eq (c : Char) :
    c.toLower = if c.toNat ≥ 65 ∧ c.toNat ≤ 90 then Char.ofNat (c.toNat + 32) else c := rfl

/-- The maps `Char.ofNat` and `Char.toNat` cancel on the lowercase ASCII range. -/
theorem ofNat_toNat_lower (n : ℕ) (h1 : 97 ≤ n) (h2 : n ≤ 122) :
    (Char.ofNat n).toNat = n := by
  interval_cases n <;> decide

/-- Lowercase ASCII codes decode to non-uppercase characters. -/
theorem isUpper_ofNat_lower (n : ℕ) (h1 : 97 ≤ n) (h2 : n ≤ 122) :
    (Char.ofNat n).isUpper = false := by
  interval_cases n <;> decide

/-- The predicate `Char.isUpper` written out through `Char.toNat`. -/
theorem isUpper_eq (c : Char) :
    c.isUpper = (decide (65 ≤ c.toNat) && decide (c.toNat ≤ 90)) := by
  simp [Char.isUpper, Char.toNat, UInt32.le_def, BitVec.le_def, UInt32.toNat]

/-- Lowercasing is idempotent. -/
theorem toLower_idem (c : Char) : c.toLower.toLower = c.toLower := by
  by_cases h : c.toNat ≥ 65 ∧ c.toNat ≤ 90
  · rw [toLower_eq c, if_pos h]
    have hn : (Char.ofNat (c.toNat + 32)).toNat = c.toNat + 32 :=
      ofNat_toNat_lower _ (by omega) (by omega)
    rw [toLower_eq, hn, if_neg (by omega)]
  · rw [toLower_eq c, if_neg h]
    rw [toLower_eq c, if_neg h]

/-- A lowercased character is never uppercase. -/
theorem isUpper_toLower (c : Char) : c.toLower.isUpper = false := by
  by_cases h : c.toNat ≥ 65 ∧ c.toNat ≤ 90
  · rw [toLower_eq c, if_pos h]
    exact isUpper_ofNat_lower _ (by omega) (by omega)
  · rw [toLower_eq c, if_neg h, isUpper_eq]
    by_cases h1 : 65 ≤ c.toNat
    · have h2 : ¬ c.toNat ≤ 90 := fun h2 => h ⟨h1, h2⟩
      simp [h2]
    · simp [h1]

/-- Every character of `collapseWs l` is an underscore or comes from `l`. -/
theorem mem_collapseWs {x : Char} : ∀ {l : List Char}, x ∈ collapseWs l → x = '_' ∨ x ∈ l := by
  intro l
  induction l with
  | nil => intro hx; simp [collapseWs] at hx
  | cons c rest ih =>
    cases rest with
    | nil =>
      intro hx
      simp only [collapseWs] at hx
      split_ifs at hx with h
      · simp at hx
        exact Or.inl hx
      · simp at hx
        exact Or.inr (by simp [hx])
    | cons c2 rest2 =>
      intro hx
      simp only [collapseWs] at hx
      split_ifs at hx with h1 h2
      · rcases ih hx with h | h
        · exact Or.inl h
        · exact Or.inr (List.mem_cons_of_mem _ h)
      · rcases List.mem_cons.mp hx with h | h
        · exact Or.inl h
        · rcases ih h with h' | h'
          · exact Or.inl h'
          · exact Or.inr (List.mem_cons_of_mem _ h')
      · rcases List.mem_cons.mp hx with h | h
        · exact Or.inr (by simp [h])
        · rcases ih h with h' | h'
          · exact Or.inl h'
          · exact Or.inr (List.mem_cons_of_mem _ h')

/-- No character of `collapseWs l` is whitespace. -/
theorem notWs_collapseWs {x : Char} :
    ∀ {l : List Char}, x ∈ collapseWs l → x.isWhitespace = false := by
  intro l
  induction l with
  | nil => intro hx; simp [collapseWs] at hx
  | cons c rest ih =>
    cases rest with
    | nil =>
      intro hx
      simp only [collapseWs] at hx
      split_ifs at hx with h
      · simp at hx
        subst hx
        decide
      · simp at hx
        subst hx
        simpa using h
    | cons c2 rest2 =>
      intro hx
      simp only [collapseWs] at hx
      split_ifs at hx with h1 h2
      · exact ih hx
      · rcases List.mem_cons.mp hx with h | h
        · subst h; decide
        · exact ih h
      · rcases List.mem_cons.mp hx with h | h
        · subst h; simpa using h2
        · exact ih h

/-- The map `collapseWs` is the identity on whitespace-free lists. -/
theorem collapseWs_of_notWs :
    ∀ {l : List Char}, (∀ x ∈ l, x.isWhitespace = false) → collapseWs l = l := by
  intro l
  induction l with
  | nil => intro _; rfl
  | cons c rest ih =>
    cases rest with
    | nil =>
      intro h
      simp only [collapseWs]
      rw [if_neg (by simp [h c (by simp)])]
    | cons c2 rest2 =>
      intro h
      simp only [collapseWs]
      rw [if_neg (by simp [h c (by simp)]), if_neg (by simp [h c (by simp)])]
      rw [ih (fun x hx => h x (List.mem_cons_of_mem _ hx))]

/-- The map `dropWhile` is idempotent. -/
theorem dropWhile_dropWhile (p : Char → Bool) (l : List Char) :
    (l.dropWhile p).dropWhile p = l.dropWhile p := by
  induction l with
  | nil => rfl
  | cons a t ih =>
    by_cases h : p a
    · simp [List.dropWhile_cons, h, ih]
    · simp [List.dropWhile_cons, h]

/-- The head of `dropWhile p l`, if any, does not satisfy `p`. -/
theorem head?_dropWhile {p : Char → Bool} {c : Char} :
    ∀ {l : List Char}, (l.dropWhile p).head? = some c → p c = false := by
  intro l
  induction l with
  | nil => intro h; simp at h
  | cons a t ih =>
    intro h
    rw [List.dropWhile_cons] at h
    by_cases hpa : p a
    · rw [if_pos hpa] at h
      exact ih h
    · rw [if_neg hpa] at h
      simp at h
      rw [← h]
      simpa using hpa

/-- A nonempty `dropWhile` keeps the last element of the list. -/
theorem getLast?_dropWhile_of_ne_nil {p : Char → Bool} {l : List Char}
    (h : l.dropWhile p ≠ []) : (l.dropWhile p).getLast? = l.getLast? := by
  obtain ⟨pre, hpre⟩ := List.dropWhile_suffix p (l := l)
  obtain ⟨y, hy⟩ : ∃ y, (l.dropWhile p).getLast? = some y := by
    cases hq : (l.dropWhile p).getLast? with
    | none => exact absurd (List.getLast?_eq_none_iff.mp hq) h
    | some y => exact ⟨y, rfl⟩
  have hl : l.getLast? = (pre ++ l.dropWhile p).getLast? := by rw [hpre]
  rw [hy, hl, List.getLast?_append, hy]
  rfl

/-- The first character of a stripped list is not an underscore. -/
theorem head?_stripUnderscore {l : List Char} {c : Char}
    (h : (stripUnderscore l).head? = some c) : (c == '_') = false := by
  unfold stripUnderscore at h
  rw [List.head?_reverse] at h
  have hne : ((l.dropWhile (· == '_')).reverse.dropWhile (· == '_')) ≠ [] := by
    intro e
    rw [e] at h
    simp at h
  rw [getLast?_dropWhile_of_ne_nil hne, List.getLast?_reverse] at h
  exact head?_dropWhile (p := fun x => x == '_') h

/-- Characters of a stripped list come from the original list. -/
theorem mem_stripUnderscore {l : List Char} {x : Char}
    (h : x ∈ stripUnderscore l) : x ∈ l := by
  unfold stripUnderscore at h
  rw [List.mem_reverse] at h
  have h1 := (List.dropWhile_sublist (· == '_')).subset h
  rw [List.mem_reverse] at h1
  exact (List.dropWhile_sublist (· == '_')).subset h1

/-- Stripping underscores is idempotent. -/
theorem stripUnderscore_idem (l : List Char) :
    stripUnderscore (stripUnderscore l) = stripUnderscore l := by
  have h1 : (stripUnderscore l).dropWhile (· == '_') = stripUnderscore l := by
    cases hm : stripUnderscore l with
    | nil => rfl
    | cons c t =>
      have hc : (c == '_') = false := by
        apply head?_stripUnderscore (l := l)
        rw [hm]
        rfl
      rw [List.dropWhile_cons, hc]
      simp
  calc stripUnderscore (stripUnderscore l)
      = (((stripUnderscore l).dropWhile (· == '_')).reverse.dropWhile (· == '_')).reverse := rfl
    _ = ((stripUnderscore l).reverse.dropWhile (· == '_')).reverse := by rw [h1]
    _ = ((((l.dropWhile (· == '_')).reverse.dropWhile (· == '_'))).dropWhile
          (· == '_')).reverse := by
          rw [show (stripUnderscore l).reverse
                = ((l.dropWhile (· == '_')).reverse.dropWhile (· == '_'))
              from by unfold stripUnderscore; rw [List.reverse_reverse]]
    _ = ((l.dropWhile (· == '_')).reverse.dropWhile (· == '_')).reverse := by
          rw [dropWhile_dropWhile]
    _ = stripUnderscore l := rfl

/-- A map that fixes every element of a list is the identity on it. -/
theorem map_fixed_eq_self {f : Char → Char} :
    ∀ {l : List Char}, (∀ x ∈ l, f x = x) → l.map f = l := by
  intro l
  induction l with
  | nil => intro _; rfl
  | cons a t ih =>
    intro h
    simp only [List.map_cons]
    rw [h a (by simp), ih (fun x hx => h x (List.mem_cons_of_mem _ hx))]

/-- C10: `slugify` is idempotent, and its output contains no whitespace
and no uppercase letters. -/
theorem slugify_idempotent_clean (s : String) :
    slugify (slugify s) = slugify s ∧
    ∀ c, c ∈ (slugify s).data → c.isWhitespace = false ∧ c.isUpper = false := by
  have hmem : ∀ c, c ∈ (slugify s).data →
      (c = '_' ∨ (∃ d : Char, c = d.toLower) ∧ keepChar c = true) ∧ c.isWhitespace = false := by
    intro c hc
    have hc1 : c ∈ collapseWs ((s.data.map Char.toLower).filter keepChar) :=
      mem_stripUnderscore hc
    refine ⟨?_, notWs_collapseWs hc1⟩
    rcases mem_collapseWs hc1 with h | h
    · exact Or.inl h
    · right
      have h2 := List.mem_filter.mp h
      refine ⟨?_, h2.2⟩
      obtain ⟨d, _, rfl⟩ := List.mem_map.mp h2.1
      exact ⟨d, rfl⟩
  refine ⟨?_, fun c hc => ⟨(hmem c hc).2, ?_⟩⟩
  · show String.mk (stripUnderscore (collapseWs
      (((slugify s).data.map Char.toLower).filter keepChar))) = slugify s
    have hmapN : (slugify s).data.map Char.toLower = (slugify s).data := by
      apply map_fixed_eq_self
      intro x hx
      rcases (hmem x hx).1 with h | ⟨⟨d, hd⟩, _⟩
      · rw [h]; decide
      · rw [hd]; exact toLower_idem d
    have hfiltN : ((slugify s).data).filter keepChar = (slugify s).data :=
      List.filter_eq_self.mpr fun x hx => by
        rcases (hmem x hx).1 with h | ⟨_, hk⟩
        · rw [h]; decide
        · exact hk
    have hcolN : collapseWs ((slugify s).data) = (slugify s).data :=
      collapseWs_of_notWs fun x hx => (hmem x hx).2
    rw [hmapN, hfiltN, hcolN]
    show String.mk (stripUnderscore (stripUnderscore
      (collapseWs ((s.data.map Char.toLower).filter keepChar)))) = slugify s
    rw [stripUnderscore_idem]
    rfl
  · rcases (hmem c hc).1 with h | ⟨⟨d, hd⟩, _⟩
    · rw [h]; decide
    · rw [hd]; exact isUpper_toLower d

/-- Witness for C10 on `"Hello World"` and its output character `h`. -/
theorem slugify_idempotent_clean_witness :
    slugify (slugify ("Hello World")) = slugify ("Hello World") ∧
    ('h'.isWhitespace = false ∧ 'h'.isUpper = false) :=
  ⟨(slugify_idempotent_clean ("Hello World")).1,
   (slugify_idempotent_clean ("Hello World")).2 'h' (by decide)⟩

end Utils
